import Mathlib

/-!
Verification of the Amz-Image-Tool reorganization pipeline.

This file gives a shallow embedding, in Lean, of the pure computational core
of the repository:

* `logic_utils.natural_key` and `pt_order._natural_key` (natural sort keys),
* the per-leaf body of `colour_sorter._process` (colour round-robin with
  clone overrides),
* `pt_order._plan_pairs_for_leaf` and the name computation of
  `pt_order._two_phase_rename`,
* `amz_rename.sanitize_for_windows`, `derive_sku_from_file`,
  `_load_sku2asin_csv`, the per-file steps of `sku2asin_rename` and
  `process_root`, and the bin-packing loop of `create_zip_archives`.

Python strings are modelled as lists of characters; the ASCII fragment of
`str.lower` / `str.upper` / `str.isdigit` / `str.strip`, which is the only
fragment these file names and CSV cells exercise, is modelled explicitly.
Python dictionaries are modelled as association lists with insertion-order
semantics (`dictGet` returns the binding of a key, `dictSet` overwrites in
place or appends).  Filesystem effects (directory creation, `shutil.copy2`)
are abstracted to the list of (destination, file) actions the code computes;
the directory listings that feed each function are taken as inputs, already
in the natural-sorted order that `_iter_images` / `_list_images` produce.
Raised Python exceptions are modelled with `Except PyErr`.
-/

namespace AmzTool

/-- A Python `str`, modelled as its list of characters. -/
abbrev PyStr := List Char

/-- A Python `dict[str, str]`, modelled as an insertion-ordered association list. -/
abbrev PyDict := List (PyStr × PyStr)

/-- Python exceptions raised by the embedded code. -/
inductive PyErr where
  | nameError : String → PyErr
  | valueError : String → PyErr
  | runtimeError : String → PyErr
deriving DecidableEq

/-- `str.isdigit` on one character, also regex `\d`: the ASCII digits `0`-`9`. -/
def pyIsDigit (c : Char) : Bool := decide (48 ≤ c.toNat ∧ c.toNat ≤ 57)

/-- `str.lower` on one character (ASCII letters; other characters unchanged). -/
def pyLower (c : Char) : Char :=
  if 65 ≤ c.toNat ∧ c.toNat ≤ 90 then Char.ofNat (c.toNat + 32) else c

/-- `str.upper` on one character (ASCII letters; other characters unchanged). -/
def pyUpper (c : Char) : Char :=
  if 97 ≤ c.toNat ∧ c.toNat ≤ 122 then Char.ofNat (c.toNat - 32) else c

/-- `str.lower` on a whole string. -/
def pyLowerStr (s : PyStr) : PyStr := s.map pyLower

/-- `str.upper` on a whole string. -/
def pyUpperStr (s : PyStr) : PyStr := s.map pyUpper

/-- Python whitespace (`str.strip` default set, regex `\s`), ASCII fragment. -/
def pyIsSpace (c : Char) : Bool :=
  c = ' ' || c = '\t' || c = '\n' || c = '\r' || c = '\x0b' || c = '\x0c'

/-- `str.strip()`: drop leading and trailing whitespace. -/
def pyStrip (s : PyStr) : PyStr :=
  ((s.dropWhile pyIsSpace).reverse.dropWhile pyIsSpace).reverse

/-- `str.replace(old, new)` for one-character `old` and `new`, as used by
`current_id.replace("-", "/")` in amz_rename.py. -/
def pyReplaceChar (s : PyStr) (old new : Char) : PyStr :=
  s.map fun c => if c = old then new else c

/-- Python `dict` lookup `d.get(k)`. -/
def dictGet (d : PyDict) (k : PyStr) : Option PyStr :=
  (d.find? fun kv => kv.1 == k).map Prod.snd

/-- Python `dict` assignment `d[k] = v`: overwrite in place, else append. -/
def dictSet (d : PyDict) (k v : PyStr) : PyDict :=
  if d.any (fun kv => kv.1 == k) then
    d.map fun kv => if kv.1 == k then (k, v) else kv
  else d ++ [(k, v)]

/-- `" ".join(parts)`. -/
def joinSpace : List PyStr → PyStr
  | [] => []
  | [s] => s
  | s :: rest => s ++ ' ' :: joinSpace rest

/-- `re.sub(r"\s+", " ", ·)`: collapse each whitespace run to a single space.
The Boolean argument records whether the previous character was whitespace. -/
def collapseWsAux : Bool → PyStr → PyStr
  | _, [] => []
  | prev, c :: cs =>
    if pyIsSpace c then
      if prev then collapseWsAux true cs else ' ' :: collapseWsAux true cs
    else c :: collapseWsAux false cs

/-- Collapse whitespace runs to single spaces (`re.sub(r"\s+", " ", name)`). -/
def collapseWs (s : PyStr) : PyStr := collapseWsAux false s

/-- `os.path.splitext` / `pathlib` suffix on a bare file name: split at the
last dot, provided some character before that dot is not a dot (CPython skips
a leading run of dots, so `".bashrc"` has no extension).  Returns
(stem, extension-with-dot). -/
def splitExt (name : PyStr) : PyStr × PyStr :=
  let r := name.reverse
  match r.dropWhile (fun c => c ≠ '.') with
  | [] => (name, [])
  | _ :: stemRev =>
    if stemRev.reverse.any (fun c => c ≠ '.') then
      (stemRev.reverse, '.' :: (r.takeWhile (fun c => c ≠ '.')).reverse)
    else (name, [])

/-!  ### Anchored regex helpers

The regexes in amz_rename.py are compiled without `re.DOTALL`, so `.` never
matches a newline, while the `$` anchor also matches just before one trailing
`"\n"`.  Hence a subject string containing newlines can only match these
patterns when it carries exactly one `"\n"` at its very end; `reFullSplit`
returns the text the anchored body is then matched against. -/

/-- Text seen by an anchored `^...$` pattern whose body cannot match `"\n"`. -/
def reFullSplit (cs : PyStr) : Option PyStr :=
  if cs.contains '\n' then
    match cs.getLast? with
    | some c =>
      if c = '\n' ∧ ¬ (cs.dropLast.contains '\n') then some cs.dropLast else none
    | none => none
  else some cs

/-- The 10-character identifier test without anchor handling:
`[A-Z0-9]{10}` compiled with `re.IGNORECASE`. -/
def asinCore (s : PyStr) : Bool :=
  decide (s.length = 10) && s.all fun c =>
    decide ((65 ≤ c.toNat ∧ c.toNat ≤ 90) ∨ (97 ≤ c.toNat ∧ c.toNat ≤ 122) ∨
      (48 ≤ c.toNat ∧ c.toNat ≤ 57))

/-- `ASIN_RE.match(s)`: `^[A-Z0-9]{10}$` with `re.IGNORECASE` (amz_rename.py). -/
def asinMatch (s : PyStr) : Bool :=
  match reFullSplit s with
  | some body => asinCore body
  | none => false

/-- The four-character variant alternative `(MAIN|PT\d{2})` of `NAME_RE`,
compiled with `re.IGNORECASE`. -/
def isVariant4 (v1 v2 v3 v4 : Char) : Bool :=
  ([pyUpper v1, pyUpper v2, pyUpper v3, pyUpper v4] = ('M' :: 'A' :: 'I' :: 'N' :: [])) ||
  (pyUpper v1 = 'P' && pyUpper v2 = 'T' && pyIsDigit v3 && pyIsDigit v4)

/-- Try to match `\.(MAIN|PT\d{2})\.(.+)$` against the part of the subject
following the first capture group; returns (variant text, third group). -/
def splitVariant : PyStr → Option (PyStr × PyStr)
  | d1 :: v1 :: v2 :: v3 :: v4 :: d2 :: g3 =>
    if d1 = '.' ∧ d2 = '.' ∧ isVariant4 v1 v2 v3 v4 ∧ g3 ≠ [] then
      some ([v1, v2, v3, v4], g3)
    else none
  | _ => none

/-- The non-greedy `(.+?)` loop of `NAME_RE`: grow the first group one
character at a time (it must be non-empty) and take the first position at
which the rest of the pattern matches. -/
def matchBodyAux : PyStr → PyStr → Option (PyStr × PyStr × PyStr)
  | _, [] => none
  | g1rev, c :: rest =>
    match splitVariant rest with
    | some (v, g3) => some ((c :: g1rev).reverse, v, g3)
    | none => matchBodyAux (c :: g1rev) rest

/-- `NAME_RE.match`: `^(.+?)\.(MAIN|PT\d{2})\.(.+)$` with `re.IGNORECASE`
(amz_rename.py).  Returns the three capture groups. -/
def nameReMatch (cs : PyStr) : Option (PyStr × PyStr × PyStr) :=
  match reFullSplit cs with
  | none => none
  | some body => matchBodyAux [] body

/-- `re.match(r"^(PT\d{2})\.(.+)$", name, re.IGNORECASE)` from
`process_root` (amz_rename.py line 176).  Returns (group 1, group 2). -/
def ptBareMatch (cs : PyStr) : Option (PyStr × PyStr) :=
  match reFullSplit cs with
  | some (p :: t :: d1 :: d2 :: dot :: rest) =>
    if pyUpper p = 'P' ∧ pyUpper t = 'T' ∧ pyIsDigit d1 ∧ pyIsDigit d2 ∧
        dot = '.' ∧ rest ≠ [] then
      some ([p, t, d1, d2], rest)
    else none
  | _ => none

/-- `re.match(r"^MAIN\.(.+)$", name, re.IGNORECASE)` from `process_root`
(amz_rename.py line 181), as a Boolean (the group is unused there). -/
def mainBareMatch (cs : PyStr) : Bool :=
  match reFullSplit cs with
  | some (m :: a :: i :: n :: dot :: rest) =>
    pyUpper m = 'M' ∧ pyUpper a = 'A' ∧ pyUpper i = 'I' ∧ pyUpper n = 'N' ∧
      dot = '.' ∧ rest ≠ []
  | _ => false

/-! ### logic_utils.py / pt_order.py: natural sort keys -/

/-- `re.split(r"(\d+)", name)`: alternating parts, starting and ending with a
(possibly empty) digit-free part, with maximal non-empty digit runs at the odd
positions.  Defined by structural recursion on the characters. -/
def splitDR : PyStr → List PyStr
  | [] => [[]]
  | c :: cs =>
    if pyIsDigit c then
      match splitDR cs with
      | [] :: d :: tl => [] :: (c :: d) :: tl
      | rest => [] :: [c] :: rest
    else
      match splitDR cs with
      | nd :: tl => (c :: nd) :: tl
      | [] => [c] :: []

/-- One element of a natural-sort key: either a lower-cased text run or the
numeric value of a digit run (`int` vs `str` in Python). -/
inductive KeyPart where
  | str : PyStr → KeyPart
  | num : Nat → KeyPart
deriving DecidableEq

/-- `int(s)` for a digit string: decimal value. -/
def parseDecimal (s : PyStr) : Nat :=
  s.foldl (fun a c => 10 * a + (c.toNat - 48)) 0

/-- `int(s) if s.isdigit() else s.lower()` applied to one split part. -/
def keyElem (s : PyStr) : KeyPart :=
  if s ≠ [] ∧ s.all pyIsDigit then KeyPart.num (parseDecimal s) else KeyPart.str (pyLowerStr s)

/-- `logic_utils.natural_key` (and, up to list-vs-tuple packaging,
`pt_order._natural_key`): split on digit runs, mapping digit runs to their
numeric value and other runs to their lower-cased text. -/
def natural_key (name : PyStr) : List KeyPart := (splitDR name).map keyElem

/-- Python string `<`: lexicographic by code point. -/
def strLtB : PyStr → PyStr → Bool
  | [], [] => false
  | [], _ :: _ => true
  | _ :: _, [] => false
  | c :: cs, d :: ds => if c = d then strLtB cs ds else decide (c.toNat < d.toNat)

/-- Python list `<` on natural-sort keys: find the first position where the
elements differ (cross-type `==` is `False` in Python), then compare them with
`<` there; comparing an `int` with a `str` raises `TypeError`, modelled as
`none`.  `some b` means the comparison returns `b`. -/
def keyLt : List KeyPart → List KeyPart → Option Bool
  | [], [] => some false
  | [], _ :: _ => some true
  | _ :: _, [] => some false
  | a :: as, b :: bs =>
    if a = b then keyLt as bs
    else
      match a, b with
      | KeyPart.num x, KeyPart.num y => some (decide (x < y))
      | KeyPart.str x, KeyPart.str y => some (strLtB x y)
      | _, _ => none

/-- Well-formedness of a natural-sort key, as produced by `natural_key`:
parts alternate between digit-free text (`b = false`, the even positions) and
numbers (`b = true`, the odd positions). -/
inductive AltKey : Bool → List KeyPart → Prop
  | nil (b : Bool) : AltKey b []
  | str (s : PyStr) (l : List KeyPart) (hs : ∀ c ∈ s, pyIsDigit c = false)
      (hl : AltKey true l) : AltKey false (KeyPart.str s :: l)
  | num (n : Nat) (l : List KeyPart) (hl : AltKey false l) : AltKey true (KeyPart.num n :: l)

/-- Well-formedness of the output of `splitDR`: a digit-free part, then
alternately a non-empty digit run and a digit-free part. -/
inductive NDParts : List PyStr → Prop
  | single (nd : PyStr) (hnd : ∀ c ∈ nd, pyIsDigit c = false) : NDParts [nd]
  | cons (nd d : PyStr) (tl : List PyStr) (hnd : ∀ c ∈ nd, pyIsDigit c = false)
      (hne : d ≠ []) (hd : ∀ c ∈ d, pyIsDigit c = true) (htl : NDParts tl) :
      NDParts (nd :: d :: tl)

/-! ### pt_order.py: position renaming -/

/-- Decimal digit character for `m < 10`. -/
def digitChar (m : Nat) : Char := Char.ofNat (48 + m)

/-- `str(n)` for a natural number, fuel-indexed so that it is structural. -/
def decimalReprAux : Nat → Nat → PyStr
  | 0, _ => []
  | fuel + 1, n =>
    if n < 10 then [digitChar n] else decimalReprAux fuel (n / 10) ++ [digitChar (n % 10)]

/-- `str(n)`: usual decimal rendering. -/
def decimalRepr (n : Nat) : PyStr := decimalReprAux (n + 1) n

/-- `len(str(n))`. -/
def numDigits (n : Nat) : Nat := (decimalRepr n).length

/-- `max(mapping)` for a list of naturals (`0` for the empty list, matching
`max(mapping) if mapping else 0`). -/
def listMax (l : List Nat) : Nat := l.foldl Nat.max 0

/-- `pt_order._width_from_mapping`: `max(2, len(str(max(mapping) + 2)))`. -/
def _width_from_mapping (mapping : List Nat) : Nat :=
  Nat.max 2 (numDigits (listMax mapping + 2))

/-- `f"{num:0{width}d}"`: left-pad the decimal rendering with zeros to at
least `width` characters. -/
def padZeros (width : Nat) (ds : PyStr) : PyStr :=
  List.replicate (width - ds.length) '0' ++ ds

/-- The planned file name `f"PT{new_num:0{width}d}{ext.lower()}"` of
`pt_order._plan_pairs_for_leaf`. -/
def targetName (width num : Nat) (ext : PyStr) : PyStr :=
  'P' :: 'T' :: (padZeros width (decimalRepr num) ++ pyLowerStr ext)

/-- The (source name, planned name) sequence for the first `len(mapping)`
images of a leaf, before the `src != dst` filter: image at position `i` is
planned to become `PT{mapping[i] + 2}` zero-padded, with its extension
lower-cased. -/
def plannedPairs (files : List PyStr) (mapping : List Nat) : List (PyStr × PyStr) :=
  ((files.take mapping.length).zip mapping).map fun fm =>
    (fm.1, targetName (_width_from_mapping mapping) (fm.2 + 2) (splitExt fm.1).2)

/-- `pt_order._plan_pairs_for_leaf` (lines 86-109), at the level of file
names within one leaf.  `files` is the leaf's natural-sorted image listing
(`_list_images`).  An empty listing yields an empty plan; a listing shorter
than the mapping raises `RuntimeError`; pairs whose source already bears the
planned name are dropped; duplicate planned names raise `RuntimeError`. -/
def _plan_pairs_for_leaf (files : List PyStr) (mapping : List Nat) :
    Except PyErr (List (PyStr × PyStr)) :=
  if files = [] then Except.ok []
  else if files.length < mapping.length then
    Except.error (PyErr.runtimeError ("leaf has fewer files than mapping length"))
  else
    let pairs := (plannedPairs files mapping).filter fun p => p.1 ≠ p.2
    if (pairs.map Prod.snd).Nodup then Except.ok pairs
    else Except.error (PyErr.runtimeError ("duplicate target names"))

/-- `pt_order._two_phase_rename` (lines 111-142) writes, for each planned
pair, one copy of the source into the mirrored output directory under the
fresh output root, named by the pair's destination basename.  The file names
written for one leaf are therefore the destination names of its pairs. -/
def _two_phase_rename_outputs (pairs : List (PyStr × PyStr)) : List PyStr :=
  pairs.map Prod.snd

/-! ### colour_sorter.py: colour round-robin assignment -/

/-- The binding of the name `duplicate_indices` in the global namespace of
colour_sorter.py.  The name is read by `_process` at line 114
(`duplicate_indices.get(rel_posix, [])`) but **no assignment to it exists
anywhere in the module or the repository**, so the name is unbound: reading
it raises `NameError`. -/
def duplicate_indices : Option (List (PyStr × List Nat)) := none

/-- The per-leaf body of `colour_sorter._process` (lines 97-153), at the
level of one `col_map` entry.  `files` is the leaf's natural-sorted image
listing (`_iter_images`); the result is the ordered list of
(colour bucket, file name) copies performed for the leaf.  Evaluating the
unbound global `duplicate_indices` raises `NameError`; the remaining lines
(partition by duplicate indices, round-robin copy of the normal partition,
then `_clone_selected_to_all_colours` when `apply` and a clone name are set)
are modelled for the hypothetical case where the global were bound. -/
def _process_leaf (rel_posix : PyStr) (files : List PyStr) (seq : List PyStr)
    (clone_name : Option PyStr) (apply : Bool) : Except PyErr (List (PyStr × PyStr)) :=
  let colours := (seq.map pyStrip).filter fun s => s ≠ []
  if colours = [] then Except.ok []
  else if files = [] then Except.ok []
  else
    match duplicate_indices with
    | none => Except.error (PyErr.nameError ("duplicate_indices"))
    | some dup_map =>
      let dup_indices := ((dup_map.find? fun kv => kv.1 == rel_posix).map Prod.snd).getD []
      let normal_files := (files.enum.filter fun fi => fi.1 ∉ dup_indices).map Prod.snd
      let k := colours.length
      let copies := normal_files.enum.filterMap fun fi =>
        let colour := pyStrip (colours.getD (fi.1 % k) [])
        if colour = [] then none
        else if colour ∈ colours then some (colour, fi.2) else none
      let withClone :=
        match clone_name, apply with
        | some cn, true =>
          if copies.any (fun p => p.2 == cn) then
            copies ++ (colours.filter fun c => ¬ (copies.contains (c, cn))).map fun c => (c, cn)
          else copies
        | _, _ => copies
      Except.ok withClone

/-! ### amz_rename.py: sanitization, key derivation, identifier resolution -/

/-- The character class `[<>:"/\\|?*]` removed by `sanitize_for_windows`. -/
def INVALID_WIN_CHARS : PyStr := ("<>:\"/\\|?*").data

/-- `amz_rename.sanitize_for_windows`: remove the illegal filename
characters, collapse whitespace runs to single spaces, strip the ends. -/
def sanitize_for_windows (name : PyStr) : PyStr :=
  pyStrip (collapseWs (name.filter fun c => ¬ (INVALID_WIN_CHARS.contains c)))

/-- `amz_rename.derive_sku_from_file`, as a function of the file's ancestor
directory names below the root (`file_path.relative_to(root).parts[:-1]`):
keep the last four parts, padding with empty strings when fewer than four
exist, space-join and sanitize. -/
def derive_sku_from_file (rel_parts : List PyStr) : PyStr :=
  let sku_parts :=
    if rel_parts.length < 4 then rel_parts ++ List.replicate (4 - rel_parts.length) []
    else rel_parts.drop (rel_parts.length - 4)
  sanitize_for_windows (joinSpace sku_parts)

/-- The per-file outcome of the `sku2asin_rename` loop. -/
inductive RenameAction where
  | untouched : RenameAction
  | renamed : PyStr → RenameAction
deriving DecidableEq

/-- The body of the `sku2asin_rename` loop (amz_rename.py lines 96-128) for
one file name: match `NAME_RE`, lower-case the key, skip keys that already
match `ASIN_RE`, look the key up in the table and, on a miss, retry once with
every `-` of the key replaced by `/`; on a hit the file is renamed to
`f"{asin}.{variant}.{ext}"` with the variant upper-cased. -/
def sku2asin_rename_file (table : PyDict) (fname : PyStr) : RenameAction :=
  match nameReMatch fname with
  | none => RenameAction.untouched
  | some (g1, g2, g3) =>
    let current_id := pyLowerStr g1
    let variant := pyUpperStr g2
    if asinMatch current_id then RenameAction.untouched
    else
      let asin :=
        match dictGet table current_id with
        | some a => some a
        | none => dictGet table (pyReplaceChar current_id '-' '/')
      match asin with
      | none => RenameAction.untouched
      | some a => RenameAction.renamed (a ++ '.' :: variant ++ '.' :: g3)

/-- The per-file outcome of the `process_root` loop. -/
inductive CopyAction where
  | skippedNoSku : CopyAction
  | skippedNoVariant : CopyAction
  | skippedNoAsin : CopyAction
  | copied : PyStr → CopyAction
deriving DecidableEq

/-- The body of the `process_root` loop (amz_rename.py lines 162-202) for one
eligible file: derive a SKU from the ancestor directories (skip with a
warning when it is empty), determine the variant and extension from the file
name (`NAME_RE`, else bare `PT\d{2}`, else bare `MAIN`), resolve the ASIN
with the same one-shot `-` to `/` fallback, and copy to
`f"{asin}.{variant}.{ext}"`. -/
def process_root_file (table : PyDict) (rel_dir_parts : List PyStr) (fname : PyStr) :
    CopyAction :=
  let sku := derive_sku_from_file rel_dir_parts
  if sku = [] then CopyAction.skippedNoSku
  else
    let ve : Option (PyStr × PyStr) :=
      match nameReMatch fname with
      | some (_, g2, g3) => some (pyUpperStr g2, g3)
      | none =>
        match ptBareMatch fname with
        | some (g1, g2) => some (pyUpperStr g1, g2)
        | none =>
          if mainBareMatch fname then
            some (('M' :: 'A' :: 'I' :: 'N' :: []), (splitExt fname).2.dropWhile (fun c => c = '.'))
          else none
    match ve with
    | none => CopyAction.skippedNoVariant
    | some (variant, ext) =>
      let asin :=
        match dictGet table (pyLowerStr sku) with
        | some a => some a
        | none => dictGet table (pyReplaceChar (pyLowerStr sku) '-' '/')
      match asin with
      | none => CopyAction.skippedNoAsin
      | some a => CopyAction.copied (a ++ '.' :: variant ++ '.' :: ext)

/-! ### amz_rename.py: the sku2asin.csv loader -/

/-- A CSV row as `csv.DictReader` delivers it: field name to cell value. -/
abbrev CsvRow := PyDict

/-- The byte-order mark stripped by `encoding="utf-8-sig"`: reading the file
with that codec removes one leading U+FEFF, which would otherwise be glued to
the first header cell. -/
def stripBom (s : PyStr) : PyStr :=
  match s with
  | c :: rest => if c = '\uFEFF' then rest else s
  | [] => []

/-- The header dictionary `{h.lower(): h for h in r.fieldnames}`. -/
def headersOf (fns : List PyStr) : PyDict :=
  fns.foldl (fun d h => dictSet d (pyLowerStr h) h) []

/-- One data row of `_load_sku2asin_csv`: map the trimmed lower-cased SKU to
the trimmed upper-cased ASIN when the SKU is non-empty and the ASIN matches
`ASIN_RE`; otherwise leave the mapping unchanged. -/
def loadRow (skuCol asinCol : PyStr) (m : PyDict) (row : CsvRow) : PyDict :=
  let sku := pyLowerStr (pyStrip ((dictGet row skuCol).getD []))
  let asin := pyUpperStr (pyStrip ((dictGet row asinCol).getD []))
  if sku ≠ [] ∧ asinMatch asin then dictSet m sku asin else m

/-- `amz_rename._load_sku2asin_csv` (lines 25-44), as a function of the
parsed header cells and data rows (file opening and CSV splitting are outside
the embedding; `stripBom` on the first header cell models
`encoding="utf-8-sig"`).  Fails with `ValueError` when the header is missing
or lacks `sku`/`asin` columns (matched case-insensitively); otherwise folds
the rows into a dictionary. -/
def _load_sku2asin_csv (fieldnames : List PyStr) (rows : List CsvRow) :
    Except PyErr PyDict :=
  match fieldnames with
  | [] => Except.error (PyErr.valueError ("sku2asin.csv missing header row."))
  | f0 :: rest =>
    let fns := stripBom f0 :: rest
    let headers := headersOf fns
    match dictGet headers (('s' :: 'k' :: 'u' :: [])),
        dictGet headers (('a' :: 's' :: 'i' :: 'n' :: [])) with
    | some skuCol, some asinCol =>
      Except.ok (rows.foldl (loadRow skuCol asinCol) [])
    | _, _ => Except.error (PyErr.valueError ("sku2asin.csv must have sku and asin columns."))

/-! ### amz_rename.py: create_zip_archives bin packing -/

/-- `MAX_ZIP_SIZE = 1 * 1024 * 1024 * 1024`. -/
def MAX_ZIP_SIZE : Nat := 1 * 1024 * 1024 * 1024

/-- One archive bin: its (file, size) entries and its current total size,
mirroring the parallel `bins` / `bin_sizes` lists. -/
abbrev Bin := List (String × Nat) × Nat

/-- Place one file into the first existing bin whose total stays within the
cap, else open a new bin at the end (the inner loop of
`create_zip_archives`). -/
def placeFirstFit (cap : Nat) (bins : List Bin) (f : String × Nat) : List Bin :=
  match bins with
  | [] => [([f], f.2)]
  | b :: bs =>
    if b.2 + f.2 ≤ cap then (b.1 ++ [f], b.2 + f.2) :: bs
    else b :: placeFirstFit cap bs f

/-- Stable insertion of one file into a size-descending list: equal sizes
keep their original relative order, as Python's stable `list.sort` does. -/
def insertBySizeDesc (x : String × Nat) : List (String × Nat) → List (String × Nat)
  | [] => [x]
  | y :: ys => if y.2 > x.2 then y :: insertBySizeDesc x ys else x :: y :: ys

/-- `files_with_sizes.sort(key=lambda x: x[1], reverse=True)`: stable sort by
size, largest first (insertion sort computes the same list as any stable
sort for this key). -/
def sortBySizeDesc : List (String × Nat) → List (String × Nat)
  | [] => []
  | x :: xs => insertBySizeDesc x (sortBySizeDesc xs)

/-- The bin-packing portion of `amz_rename.create_zip_archives` (lines
239-258): sort the (file, size) list by size descending, then first-fit each
file into the accumulated bins. -/
def create_zip_archives (files_with_sizes : List (String × Nat)) : List Bin :=
  (sortBySizeDesc files_with_sizes).foldl (placeFirstFit MAX_ZIP_SIZE) []

/-- One mebibyte, for the concrete packing scenario of the spec. -/
def mib : Nat := 1024 * 1024

/-- The spec's packing scenario: files of sizes 900 MB, 200 MB, 200 MB and
50 MB. -/
def packInputC4 : List (String × Nat) :=
  [(("a"), 900 * mib), (("b"), 200 * mib), (("c"), 200 * mib), (("d"), 50 * mib)]

/-- The identifier table used in the fallback-direction scenario: it maps the
slash form of the key, as the external dataset does. -/
def tableC6 : PyDict := [((("x/y").data), (("B000000001").data))]

/-- A concrete sku2asin.csv header: byte-order mark glued to an upper-case
`SKU` column, mixed-case `Asin` column. -/
def csvHeaderC8 : List PyStr := [("\uFEFFSKU").data, ("Asin").data]

/-- Concrete sku2asin.csv rows: one valid row (untrimmed, mixed case), one
with an empty SKU, one whose value fails the identifier pattern. -/
def csvRowsC8 : List CsvRow :=
  [[((("SKU").data), ((" x ").data)), ((("Asin").data), ((" b0abcdefg1 ").data))],
   [((("SKU").data), (("").data)), ((("Asin").data), (("B000000002").data))],
   [((("SKU").data), (("y").data)), ((("Asin").data), (("bad").data))]]

/-!
## Helper lemmas
-/

theorem toNat_pyLower (c : Char) :
    (pyLower c).toNat = if 65 ≤ c.toNat ∧ c.toNat ≤ 90 then c.toNat + 32 else c.toNat := by
  unfold pyLower
  split
  · rename_i h
    obtain ⟨h1, h2⟩ := h
    generalize hm : c.toNat = m at h1 h2 ⊢
    interval_cases m <;> decide
  · rfl

theorem pyIsDigit_pyLower (c : Char) : pyIsDigit (pyLower c) = pyIsDigit c := by
  have h := toNat_pyLower c
  unfold pyIsDigit
  rw [h]
  split
  · rename_i hh
    simp only [decide_eq_decide]
    omega
  · rfl

/-- Unfolding equation for `splitDR` on a non-empty string. -/
theorem splitDR_cons (c : Char) (cs : PyStr) :
    splitDR (c :: cs) =
      if pyIsDigit c then
        match splitDR cs with
        | [] :: d :: tl => [] :: (c :: d) :: tl
        | rest => [] :: [c] :: rest
      else
        match splitDR cs with
        | nd :: tl => (c :: nd) :: tl
        | [] => [c] :: [] := rfl

/-- The output of `splitDR` always has the digit-free / digit-run alternating
shape. -/
theorem ndParts_splitDR (cs : PyStr) : NDParts (splitDR cs) := by
  induction cs with
  | nil => exact NDParts.single [] (by simp)
  | cons c cs ih =>
    rw [splitDR_cons]
    by_cases hc : pyIsDigit c = true
    · rw [if_pos hc]
      rcases hs : splitDR cs with _ | ⟨p, ps⟩
      · rw [hs] at ih; cases ih
      · rw [hs] at ih
        rcases p with _ | ⟨x, xs⟩
        · rcases ps with _ | ⟨d, tl⟩
          · show NDParts ([] :: [c] :: ([] :: []))
            cases ih with
            | single nd2 hnd =>
              exact NDParts.cons [] [c] [[]] (by simp)
                (by simp) (by simpa using hc) (NDParts.single [] (by simp))
          · show NDParts ([] :: (c :: d) :: tl)
            cases ih with
            | cons nd2 d2 tl2 hnd hne hd htl =>
              refine NDParts.cons [] (c :: d) tl (by simp) (by simp) ?_ htl
              intro y hy
              rcases List.mem_cons.mp hy with rfl | hy'
              · exact hc
              · exact hd y hy'
        · show NDParts ([] :: [c] :: ((x :: xs) :: ps))
          exact NDParts.cons [] [c] ((x :: xs) :: ps) (by simp)
            (by simp) (by simpa using hc) ih
    · rw [if_neg hc]
      have hc' : pyIsDigit c = false := by
        cases hb : pyIsDigit c
        · rfl
        · exact absurd hb hc
      rcases hs : splitDR cs with _ | ⟨p, ps⟩
      · rw [hs] at ih; cases ih
      · rw [hs] at ih
        show NDParts ((c :: p) :: ps)
        cases ih with
        | single nd2 hnd =>
          refine NDParts.single (c :: p) ?_
          intro y hy
          rcases List.mem_cons.mp hy with rfl | hy'
          · exact hc'
          · exact hnd y hy'
        | cons nd2 d2 tl2 hnd hne hd htl =>
          refine NDParts.cons (c :: p) d2 tl2 ?_ hne hd htl
          intro y hy
          rcases List.mem_cons.mp hy with rfl | hy'
          · exact hc'
          · exact hnd y hy'

theorem keyElem_nondigit {nd : PyStr} (hnd : ∀ c ∈ nd, pyIsDigit c = false) :
    keyElem nd = KeyPart.str (pyLowerStr nd) := by
  unfold keyElem
  rcases nd with _ | ⟨x, xs⟩
  · rfl
  · rw [if_neg]
    rintro ⟨-, hall⟩
    have hx := List.all_eq_true.mp hall x (by simp)
    rw [hnd x (by simp)] at hx
    cases hx

theorem keyElem_digit {d : PyStr} (hne : d ≠ []) (hd : ∀ c ∈ d, pyIsDigit c = true) :
    keyElem d = KeyPart.num (parseDecimal d) := by
  unfold keyElem
  rw [if_pos ⟨hne, List.all_eq_true.mpr hd⟩]

theorem lowered_nondigit {nd : PyStr} (hnd : ∀ c ∈ nd, pyIsDigit c = false) :
    ∀ c ∈ pyLowerStr nd, pyIsDigit c = false := by
  intro c hc
  obtain ⟨c0, hc0, rfl⟩ := List.mem_map.mp hc
  rw [pyIsDigit_pyLower]
  exact hnd c0 hc0

theorem altKey_of_ndParts {parts : List PyStr} (h : NDParts parts) :
    AltKey false (parts.map keyElem) := by
  induction h with
  | single nd hnd =>
    rw [List.map_cons, List.map_nil, keyElem_nondigit hnd]
    exact AltKey.str _ _ (lowered_nondigit hnd) (AltKey.nil true)
  | cons nd d tl hnd hne hd htl ih =>
    rw [List.map_cons, List.map_cons, keyElem_nondigit hnd, keyElem_digit hne hd]
    exact AltKey.str _ _ (lowered_nondigit hnd) (AltKey.num _ _ ih)

/-- Every natural-sort key has the alternating text/number shape. -/
theorem altKey_natural_key (s : PyStr) : AltKey false (natural_key s) :=
  altKey_of_ndParts (ndParts_splitDR s)

/-- Unfolding equation for `keyLt` on two non-empty keys. -/
theorem keyLt_cons (a b : KeyPart) (as bs : List KeyPart) :
    keyLt (a :: as) (b :: bs) =
      if a = b then keyLt as bs
      else
        match a, b with
        | KeyPart.num x, KeyPart.num y => some (decide (x < y))
        | KeyPart.str x, KeyPart.str y => some (strLtB x y)
        | _, _ => none := rfl

/-- Comparing two keys of the same alternation parity never hits an
`int` / `str` type mismatch. -/
theorem keyLt_isSome_of_alt {b : Bool} {k1 k2 : List KeyPart}
    (h1 : AltKey b k1) (h2 : AltKey b k2) : (keyLt k1 k2).isSome = true := by
  induction h1 generalizing k2 with
  | nil b => cases h2 <;> rfl
  | str s l hs hl ih =>
    cases h2 with
    | nil => rfl
    | str s2 l2 hs2 hl2 =>
      rw [keyLt_cons]
      by_cases he : KeyPart.str s = KeyPart.str s2
      · rw [if_pos he]
        exact ih hl2
      · rw [if_neg he]
        rfl
  | num n l hl ih =>
    cases h2 with
    | nil => rfl
    | num n2 l2 hl2 =>
      rw [keyLt_cons]
      by_cases he : KeyPart.num n = KeyPart.num n2
      · rw [if_pos he]
        exact ih hl2
      · rw [if_neg he]
        rfl

theorem digitChar_toNat {m : Nat} (h : m < 10) : (digitChar m).toNat = 48 + m := by
  interval_cases m <;> decide

theorem decimalReprAux_fuel {f g n : Nat} (hf : n < f) (hg : n < g) :
    decimalReprAux f n = decimalReprAux g n := by
  induction f generalizing g n with
  | zero => omega
  | succ f ih =>
    cases g with
    | zero => omega
    | succ g =>
      unfold decimalReprAux
      by_cases h : n < 10
      · rw [if_pos h, if_pos h]
      · rw [if_neg h, if_neg h, ih (g := g) (n := n / 10) (by omega) (by omega)]

theorem decimalRepr_eq (n : Nat) :
    decimalRepr n =
      if n < 10 then [digitChar n] else decimalRepr (n / 10) ++ [digitChar (n % 10)] := by
  unfold decimalRepr
  by_cases h : n < 10
  · rw [if_pos h]
    unfold decimalReprAux
    rw [if_pos h]
  · rw [if_neg h]
    show decimalReprAux (n + 1) n = _
    unfold decimalReprAux
    rw [if_neg h]
    congr 1
    exact decimalReprAux_fuel (f := n) (g := n / 10 + 1) (n := n / 10) (by omega) (by omega)

theorem parseDecimal_append (xs : PyStr) (c : Char) :
    parseDecimal (xs ++ [c]) = 10 * parseDecimal xs + (c.toNat - 48) := by
  unfold parseDecimal
  rw [List.foldl_append]
  rfl

theorem parseDecimal_decimalRepr (n : Nat) : parseDecimal (decimalRepr n) = n := by
  induction n using Nat.strong_induction_on with
  | _ n ih =>
    rw [decimalRepr_eq]
    by_cases h : n < 10
    · rw [if_pos h]
      show 10 * 0 + ((digitChar n).toNat - 48) = n
      rw [digitChar_toNat h]
      omega
    · rw [if_neg h, parseDecimal_append, ih (n / 10) (by omega), digitChar_toNat (by omega)]
      omega

theorem numDigits_mono : ∀ b a : Nat, a ≤ b → numDigits a ≤ numDigits b := by
  intro b
  induction b using Nat.strong_induction_on with
  | _ b ih =>
    intro a hab
    unfold numDigits
    by_cases hb : b < 10
    · rw [decimalRepr_eq a, decimalRepr_eq b, if_pos (by omega), if_pos hb]
      simp
    · by_cases ha : a < 10
      · rw [decimalRepr_eq a, if_pos ha, decimalRepr_eq b, if_neg hb]
        simp
      · rw [decimalRepr_eq a, if_neg ha, decimalRepr_eq b, if_neg hb]
        have hdiv := ih (b / 10) (by omega) (a / 10) (Nat.div_le_div_right hab)
        unfold numDigits at hdiv
        simp only [List.length_append, List.length_cons]
        omega

theorem padZeros_length (w : Nat) (ds : PyStr) :
    (padZeros w ds).length = max w ds.length := by
  unfold padZeros
  rw [List.length_append, List.length_replicate]
  rcases Nat.le_total w ds.length with h | h
  · rw [Nat.max_eq_right h]
    omega
  · rw [Nat.max_eq_left h]
    omega

theorem parseDecimal_padZeros (w : Nat) (ds : PyStr) :
    parseDecimal (padZeros w ds) = parseDecimal ds := by
  unfold padZeros parseDecimal
  rw [List.foldl_append]
  congr 1
  generalize w - ds.length = k
  induction k with
  | zero => rfl
  | succ k ih =>
    rw [List.replicate_succ, List.foldl_cons]
    exact ih

theorem le_foldl_max (l : List Nat) : ∀ init, init ≤ l.foldl Nat.max init := by
  induction l with
  | nil => intro init; exact Nat.le_refl _
  | cons x xs ih =>
    intro init
    exact le_trans (Nat.le_max_left init x) (ih (Nat.max init x))

theorem mem_le_foldl_max : ∀ (l : List Nat) (init m : Nat), m ∈ l → m ≤ l.foldl Nat.max init := by
  intro l
  induction l with
  | nil => intro init m h; cases h
  | cons x xs ih =>
    intro init m h
    rcases List.mem_cons.mp h with rfl | hm
    · exact le_trans (Nat.le_max_right init m) (le_foldl_max xs _)
    · exact ih _ m hm

/-- The padded width accommodates every `mapping[i] + 2`. -/
theorem numDigits_le_width {mapping : List Nat} {m : Nat} (h : m ∈ mapping) :
    numDigits (m + 2) ≤ _width_from_mapping mapping := by
  unfold _width_from_mapping
  have h1 : m + 2 ≤ listMax mapping + 2 := by
    have := mem_le_foldl_max mapping 0 m h
    unfold listMax
    omega
  exact le_trans (numDigits_mono _ _ h1) (Nat.le_max_right 2 _)

theorem padZeros_length_eq {w : Nat} {ds : PyStr} (h : ds.length ≤ w) :
    (padZeros w ds).length = w := by
  rw [padZeros_length]
  exact Nat.max_eq_left h

/-- Within one width budget, distinct numbers get distinct planned names. -/
theorem targetName_inj {w m1 m2 : Nat} {e1 e2 : PyStr}
    (h1 : numDigits m1 ≤ w) (h2 : numDigits m2 ≤ w)
    (heq : targetName w m1 e1 = targetName w m2 e2) : m1 = m2 := by
  unfold targetName at heq
  simp only [List.cons.injEq, true_and] at heq
  have hlen : (padZeros w (decimalRepr m1)).length = (padZeros w (decimalRepr m2)).length := by
    rw [padZeros_length_eq h1, padZeros_length_eq h2]
  obtain ⟨hpad, -⟩ := List.append_inj heq hlen
  have hval := congrArg parseDecimal hpad
  rwa [parseDecimal_padZeros, parseDecimal_padZeros, parseDecimal_decimalRepr,
    parseDecimal_decimalRepr] at hval

/-- With a duplicate-free mapping, the planned names of a leaf are pairwise
distinct. -/
theorem plannedPairs_snd_nodup {files : List PyStr} {mapping : List Nat}
    (hnodup : mapping.Nodup) (hlen : mapping.length ≤ files.length) :
    ((plannedPairs files mapping).map Prod.snd).Nodup := by
  unfold plannedPairs
  rw [List.map_map]
  have hsnd : ((files.take mapping.length).zip mapping).map Prod.snd = mapping := by
    apply List.map_snd_zip
    rw [List.length_take]
    omega
  have hmapnodup : (((files.take mapping.length).zip mapping).map Prod.snd).Nodup := by
    rw [hsnd]
    exact hnodup
  have hzsnodup : ((files.take mapping.length).zip mapping).Nodup := hmapnodup.of_map
  refine List.Nodup.map_on ?_ hzsnodup
  intro x hx y hy hgxy
  simp only [Function.comp_apply] at hgxy
  have hx2 : x.2 ∈ mapping := (List.of_mem_zip hx).2
  have hy2 : y.2 ∈ mapping := (List.of_mem_zip hy).2
  have hm : x.2 + 2 = y.2 + 2 :=
    targetName_inj (numDigits_le_width hx2) (numDigits_le_width hy2) hgxy
  exact List.inj_on_of_nodup_map hmapnodup hx hy (by omega)

theorem mem_dictSet {d : PyDict} {k v : PyStr} {kv : PyStr × PyStr}
    (h : kv ∈ dictSet d k v) : kv ∈ d ∨ kv = (k, v) := by
  unfold dictSet at h
  split at h
  · obtain ⟨kv0, hkv0, heq⟩ := List.mem_map.mp h
    split at heq
    · exact Or.inr heq.symm
    · exact Or.inl (heq ▸ hkv0)
  · rcases List.mem_append.mp h with h1 | h2
    · exact Or.inl h1
    · right
      simpa using h2

theorem dictGet_some {d : PyDict} {k v : PyStr} (h : dictGet d k = some v) :
    ∃ kv ∈ d, kv.1 = k ∧ kv.2 = v := by
  unfold dictGet at h
  cases hf : d.find? (fun kv => kv.1 == k) with
  | none => rw [hf] at h; cases h
  | some kv =>
    rw [hf] at h
    have hp := List.find?_some hf
    simp only [beq_iff_eq] at hp
    refine ⟨kv, List.mem_of_find?_eq_some hf, hp, ?_⟩
    injection h

/-- Every binding of the header dictionary maps the lower-cased form of a
header cell to that cell. -/
theorem headersOf_key_lower {fns : List PyStr} :
    ∀ kv ∈ headersOf fns, kv.1 = pyLowerStr kv.2 := by
  unfold headersOf
  suffices hgen : ∀ (l : List PyStr) (d0 : PyDict), (∀ kv ∈ d0, kv.1 = pyLowerStr kv.2) →
      ∀ kv ∈ l.foldl (fun d h => dictSet d (pyLowerStr h) h) d0, kv.1 = pyLowerStr kv.2 by
    exact hgen fns [] (by simp)
  intro l
  induction l with
  | nil => intro d0 h0 kv hkv; exact h0 kv hkv
  | cons f fs ih =>
    intro d0 h0 kv hkv
    refine ih (dictSet d0 (pyLowerStr f) f) ?_ kv hkv
    intro kv2 hkv2
    rcases mem_dictSet hkv2 with h1 | h1
    · exact h0 kv2 h1
    · rw [h1]

/-- A row whose derived SKU is empty or whose derived value fails the
identifier pattern leaves the mapping unchanged. -/
theorem loadRow_invalid (skuCol asinCol : PyStr) (m : PyDict) (row : CsvRow)
    (h : pyLowerStr (pyStrip ((dictGet row skuCol).getD [])) = [] ∨
         asinMatch (pyUpperStr (pyStrip ((dictGet row asinCol).getD []))) = false) :
    loadRow skuCol asinCol m row = m := by
  unfold loadRow
  rw [if_neg]
  rintro ⟨hne, hm⟩
  rcases h with h | h
  · exact hne h
  · rw [hm] at h
    cases h

/-- Every binding produced by folding the data rows comes from the initial
dictionary or from some valid row, normalised and validated. -/
theorem loadRows_mem (skuCol asinCol : PyStr) :
    ∀ (rs : List CsvRow) (m0 : PyDict) (kv : PyStr × PyStr),
      kv ∈ rs.foldl (loadRow skuCol asinCol) m0 →
      kv ∈ m0 ∨ ∃ row ∈ rs,
        kv.1 = pyLowerStr (pyStrip ((dictGet row skuCol).getD [])) ∧
        kv.2 = pyUpperStr (pyStrip ((dictGet row asinCol).getD [])) ∧
        kv.1 ≠ [] ∧ asinMatch kv.2 = true := by
  intro rs
  induction rs with
  | nil =>
    intro m0 kv h
    exact Or.inl h
  | cons r rsx ih =>
    intro m0 kv h
    rcases ih (loadRow skuCol asinCol m0 r) kv h with h1 | ⟨row, hrow, hs⟩
    · simp only [loadRow] at h1
      split at h1
      · rename_i hcond
        rcases mem_dictSet h1 with h2 | h2
        · exact Or.inl h2
        · right
          obtain ⟨hne, hm⟩ := hcond
          refine ⟨r, by simp, ?_⟩
          rw [h2]
          exact ⟨rfl, rfl, hne, hm⟩
      · exact Or.inl h1
    · exact Or.inr ⟨row, List.mem_cons_of_mem r hrow, hs⟩

/-!
## Claim theorems
-/

/-- Claim C1 (code bug): with no clone override, `colour_sorter._process` is
specified to round-robin a leaf's images into the colour buckets; instead,
for any leaf with at least one eligible image and a non-empty colour
sequence, line 114 reads the unbound module global `duplicate_indices` and
the leaf fails with `NameError` before any copy happens.  Evaluation at the
failing input: two images, colour sequence `["Red"]`, no clone. -/
theorem C1_process_leaf_nameError :
    _process_leaf (("Leaf").data) [("a.jpg").data, ("b.jpg").data] [("Red").data] none true =
      Except.error (PyErr.nameError ("duplicate_indices")) := rfl

/-- Claim C2 (code bug): with a clone override, the same unbound global is
read before the clone partition is ever formed, so the leaf fails with
`NameError`.  Evaluation at the repository's own test scenario
(tests/test_colour_sorter_clone.py: three images, colours Red and Blue,
clone `02.jpg`). -/
theorem C2_process_leaf_clone_nameError :
    _process_leaf (("Model/Case").data)
      [("00.jpg").data, ("01.jpg").data, ("02.jpg").data]
      [("Red").data, ("Blue").data] (some (("02.jpg").data)) true =
      Except.error (PyErr.nameError ("duplicate_indices")) := rfl

/-- Claim C3, counterexample: a leaf holding exactly the file `PT02.jpg`
(one eligible image) under the identity permutation `[0]` (a bijection on
`[0, 1)`) yields an empty plan — the planned name equals the current name and
the pair is dropped — so 0 files, not n = 1, are written for the leaf. -/
theorem C3_cex_identity_already_named :
    _plan_pairs_for_leaf [("PT02.jpg").data] [0] = Except.ok [] ∧
    _two_phase_rename_outputs [] = [] ∧
    ([("PT02.jpg").data] : List PyStr).length = 1 := ⟨rfl, rfl, rfl⟩

/-- Claim C3, amended: for a leaf with at least n natural-ordered eligible
images and a valid permutation of length n, planning succeeds, the planned
names are pairwise distinct, and one uniquely-named file is written per
position whose current name differs from its planned name — exactly n files
when no source already bears its planned name, and an empty (no-op) rename
set when every source already bears its planned name (as after reapplying
the identity permutation to an already-renamed leaf). -/
theorem C3_amended_rename_plan (files : List PyStr) (mapping : List Nat)
    (hnodup : mapping.Nodup) (hrange : ∀ m ∈ mapping, m < mapping.length)
    (hlen : mapping.length ≤ files.length) :
    ∃ pairs, _plan_pairs_for_leaf files mapping = Except.ok pairs ∧
      (_two_phase_rename_outputs pairs).Nodup ∧
      pairs = (plannedPairs files mapping).filter (fun p => p.1 ≠ p.2) ∧
      ((∀ p ∈ plannedPairs files mapping, p.1 ≠ p.2) → pairs.length = mapping.length) ∧
      ((∀ p ∈ plannedPairs files mapping, p.1 = p.2) → pairs = []) := by
  have hnd : (((plannedPairs files mapping).filter fun p => p.1 ≠ p.2).map Prod.snd).Nodup := by
    have hsub := (List.filter_sublist (plannedPairs files mapping)
      (p := fun p => decide (p.1 ≠ p.2))).map Prod.snd
    exact (plannedPairs_snd_nodup hnodup hlen).sublist hsub
  refine ⟨_, ?_, hnd, rfl, ?_, ?_⟩
  · by_cases hfe : files = []
    · subst hfe
      have hm0 : mapping = [] := by
        cases mapping with
        | nil => rfl
        | cons m ms => simp at hlen
      subst hm0
      rfl
    · unfold _plan_pairs_for_leaf
      rw [if_neg hfe, if_neg (by omega)]
      exact if_pos hnd
  · intro hall
    have hfilter : (plannedPairs files mapping).filter (fun p => p.1 ≠ p.2) =
        plannedPairs files mapping := by
      apply List.filter_eq_self.mpr
      intro a ha
      exact decide_eq_true (hall a ha)
    rw [hfilter]
    unfold plannedPairs
    rw [List.length_map, List.length_zip, List.length_take]
    omega
  · intro hall
    apply List.filter_eq_nil_iff.mpr
    intro a ha
    simp [hall a ha]

/-- Witness for C3: the amended statement applied to a two-image leaf with
the swap permutation `[1, 0]`. -/
theorem C3_amended_rename_plan_witness :
    ∃ pairs,
      _plan_pairs_for_leaf [("a.jpg").data, ("b.jpg").data] [1, 0] = Except.ok pairs ∧
      (_two_phase_rename_outputs pairs).Nodup ∧
      pairs = (plannedPairs [("a.jpg").data, ("b.jpg").data] [1, 0]).filter
        (fun p => p.1 ≠ p.2) ∧
      ((∀ p ∈ plannedPairs [("a.jpg").data, ("b.jpg").data] [1, 0], p.1 ≠ p.2) →
        pairs.length = ([1, 0] : List Nat).length) ∧
      ((∀ p ∈ plannedPairs [("a.jpg").data, ("b.jpg").data] [1, 0], p.1 = p.2) →
        pairs = []) :=
  C3_amended_rename_plan [("a.jpg").data, ("b.jpg").data] [1, 0]
    (by decide) (by decide) (by decide)

/-- Claim C4, counterexample: packing 900 MB, 200 MB, 200 MB, 50 MB files
under the 1 GiB cap does *not* produce the partition {900} / {200, 200, 50}:
first-fit places the 50 MB file back into the first bin next to the 900 MB
file (900 + 50 ≤ 1024), so no bin holds three files. -/
theorem C4_cex_fifty_joins_big_bin :
    create_zip_archives packInputC4 =
      [([(("a"), 900 * mib), (("d"), 50 * mib)], 950 * mib),
       ([(("b"), 200 * mib), (("c"), 200 * mib)], 400 * mib)] ∧
    (create_zip_archives packInputC4).all (fun b => b.1.length != 3) = true := by
  exact ⟨rfl, rfl⟩

/-- Claim C4, amended: the packing produces exactly 2 bins, partitioned as
{900 MB, 50 MB} and {200 MB, 200 MB}, and the total packed size equals the
sum of the input sizes. -/
theorem C4_amended_partition :
    (create_zip_archives packInputC4).length = 2 ∧
    (create_zip_archives packInputC4).map (fun b => b.1.map Prod.snd) =
      [[900 * mib, 50 * mib], [200 * mib, 200 * mib]] ∧
    ((create_zip_archives packInputC4).map (fun b => b.2)).sum =
      (packInputC4.map Prod.snd).sum := by
  refine ⟨rfl, rfl, rfl⟩

/-- Claim C5, counterexample: under the natural key, `"img10"` is *not*
before `"img9b"` — the digit runs 10 and 9 compare numerically and 10 > 9,
so the comparison returns `false`. -/
theorem C5_cex_img10_not_lt_img9b :
    keyLt (natural_key (("img10").data)) (natural_key (("img9b").data)) = some false := by
  decide

/-- Claim C5, amended: under the natural key `"img2" < "img10"` and
`"img9b" < "img10"` (digit runs compare numerically: 2 < 10 and 9 < 10), and
plain lexicographic string comparison does not put `"img2"` before
`"img10"`. -/
theorem C5_amended_natural_order :
    keyLt (natural_key (("img2").data)) (natural_key (("img10").data)) = some true ∧
    keyLt (natural_key (("img9b").data)) (natural_key (("img10").data)) = some true ∧
    strLtB (("img2").data) (("img10").data) = false := by
  decide

/-- Claim C6, counterexample: with the table holding key `"x/y"`, the file
`x-y.MAIN.jpg` *is* renamed — the code's fallback replaces `-` by `/` —
although neither the direct key `"x-y"` nor the claim's alleged fallback key
(`"x-y"` with `/` replaced by `-`, i.e. `"x-y"` unchanged) is in the table,
so under the claim's reading the file would have been left untouched. -/
theorem C6_cex_fallback_direction :
    sku2asin_rename_file tableC6 (("x-y.MAIN.jpg").data) =
      RenameAction.renamed (("B000000001.MAIN.jpg").data) ∧
    pyReplaceChar (pyLowerStr (("x-y").data)) '/' '-' = pyLowerStr (("x-y").data) ∧
    dictGet tableC6 (pyLowerStr (("x-y").data)) = none := by
  refine ⟨rfl, by decide, by decide⟩

/-- Claim C6, amended: for a file matching `NAME_RE` whose lower-cased key is
not already a valid identifier, after a direct-lookup miss the resolver does
exactly one fallback lookup with every `-` of the key replaced by `/` (not
`/` replaced by `-`); a key matching the identifier pattern is left
untouched. -/
theorem C6_amended_fallback_direction (table : PyDict) (fname g1 g2 g3 : PyStr)
    (hm : nameReMatch fname = some (g1, g2, g3)) :
    (asinMatch (pyLowerStr g1) = true →
      sku2asin_rename_file table fname = RenameAction.untouched) ∧
    (asinMatch (pyLowerStr g1) = false → dictGet table (pyLowerStr g1) = none →
      sku2asin_rename_file table fname =
        match dictGet table (pyReplaceChar (pyLowerStr g1) '-' '/') with
        | some a => RenameAction.renamed (a ++ '.' :: pyUpperStr g2 ++ '.' :: g3)
        | none => RenameAction.untouched) := by
  constructor
  · intro h
    unfold sku2asin_rename_file
    rw [hm]
    simp [h]
  · intro h hd
    unfold sku2asin_rename_file
    rw [hm]
    simp only [h, Bool.false_eq_true, if_false, hd]
    cases dictGet table (pyReplaceChar (pyLowerStr g1) '-' '/') <;> rfl

/-- Witness for C6: the amended statement applied at the concrete scenario
(key `"x-y"`, table holding `"x/y"`). -/
theorem C6_amended_fallback_direction_witness :
    sku2asin_rename_file tableC6 (("x-y.MAIN.jpg").data) =
      match dictGet tableC6 (pyReplaceChar (pyLowerStr (("x-y").data)) '-' '/') with
      | some a => RenameAction.renamed (a ++ '.' :: pyUpperStr (("MAIN").data) ++ '.' :: (("jpg").data))
      | none => RenameAction.untouched :=
  (C6_amended_fallback_direction tableC6 (("x-y.MAIN.jpg").data)
    (("x-y").data) (("MAIN").data) (("jpg").data) (by decide)).2 (by decide) (by decide)

/-- Claim C7, counterexample: a leaf with zero eligible images does not fail:
`_plan_pairs_for_leaf` returns before the length check and yields an empty
plan, with no `RuntimeError`, even though the mapping has length 1 > 0. -/
theorem C7_cex_empty_leaf_no_error :
    _plan_pairs_for_leaf [] [0] = Except.ok [] := rfl

/-- Claim C7, amended: a leaf with at least one but fewer than
`len(mapping)` eligible images fails with `RuntimeError`; a leaf with zero
eligible images instead yields an empty plan. -/
theorem C7_amended_short_leaf (files : List PyStr) (mapping : List Nat) :
    (files ≠ [] → files.length < mapping.length →
      _plan_pairs_for_leaf files mapping =
        Except.error (PyErr.runtimeError ("leaf has fewer files than mapping length"))) ∧
    _plan_pairs_for_leaf [] mapping = Except.ok [] := by
  constructor
  · intro hne hlt
    unfold _plan_pairs_for_leaf
    rw [if_neg hne, if_pos hlt]
  · rfl

/-- Witness for C7: the amended statement applied to a one-image leaf with a
length-2 mapping. -/
theorem C7_amended_short_leaf_witness :
    _plan_pairs_for_leaf [("a.jpg").data] [0, 1] =
      Except.error (PyErr.runtimeError ("leaf has fewer files than mapping length")) :=
  (C7_amended_short_leaf [("a.jpg").data] [0, 1]).1 (by decide) (by decide)

/-- Claim C10: an eligible image sitting directly in the root has no ancestor
directory parts, so `derive_sku_from_file` pads with four empty segments,
the space-join is three spaces, sanitization collapses it to the empty
string, and `process_root` skips the file with a could-not-derive warning,
copying nothing. -/
theorem C10_root_file_skipped :
    derive_sku_from_file [] = [] ∧
    sanitize_for_windows (joinSpace (List.replicate 4 ([] : PyStr))) = [] ∧
    ∀ (table : PyDict) (fname : PyStr),
      process_root_file table [] fname = CopyAction.skippedNoSku :=
  ⟨rfl, rfl, fun _ _ => rfl⟩

/-- Claim C8: when `_load_sku2asin_csv` succeeds, its `sku` and `asin`
columns were matched case-insensitively on the byte-order-mark-stripped
header, every key of the produced mapping is the trimmed lower-cased SKU of
some row and every value the trimmed upper-cased table value of that row
passing `ASIN_RE`, the SKUs are non-empty, and any row with an empty SKU or
a pattern-failing value contributes nothing to the mapping. -/
theorem C8_loader_properties (fieldnames : List PyStr) (rows : List CsvRow) (m : PyDict)
    (h : _load_sku2asin_csv fieldnames rows = Except.ok m) :
    ∃ f0 rest skuCol asinCol,
      fieldnames = f0 :: rest ∧
      dictGet (headersOf (stripBom f0 :: rest)) (('s' :: 'k' :: 'u' :: [])) = some skuCol ∧
      dictGet (headersOf (stripBom f0 :: rest)) (('a' :: 's' :: 'i' :: 'n' :: [])) = some asinCol ∧
      pyLowerStr skuCol = ('s' :: 'k' :: 'u' :: []) ∧
      pyLowerStr asinCol = ('a' :: 's' :: 'i' :: 'n' :: []) ∧
      (∀ kv ∈ m, kv.1 ≠ [] ∧ asinMatch kv.2 = true ∧
        ∃ row ∈ rows,
          kv.1 = pyLowerStr (pyStrip ((dictGet row skuCol).getD [])) ∧
          kv.2 = pyUpperStr (pyStrip ((dictGet row asinCol).getD []))) ∧
      (∀ (m0 : PyDict) (row : CsvRow),
        (pyLowerStr (pyStrip ((dictGet row skuCol).getD [])) = [] ∨
         asinMatch (pyUpperStr (pyStrip ((dictGet row asinCol).getD []))) = false) →
        loadRow skuCol asinCol m0 row = m0) := by
  rcases fieldnames with _ | ⟨f0, rest⟩
  · cases h
  · have hunf : _load_sku2asin_csv (f0 :: rest) rows =
        (match dictGet (headersOf (stripBom f0 :: rest)) (('s' :: 'k' :: 'u' :: [])),
            dictGet (headersOf (stripBom f0 :: rest)) (('a' :: 's' :: 'i' :: 'n' :: [])) with
          | some skuCol, some asinCol => Except.ok (rows.foldl (loadRow skuCol asinCol) [])
          | _, _ =>
            Except.error (PyErr.valueError ("sku2asin.csv must have sku and asin columns."))) :=
      rfl
    rw [hunf] at h
    rcases hsku : dictGet (headersOf (stripBom f0 :: rest)) (('s' :: 'k' :: 'u' :: []))
        with _ | skuCol <;> rw [hsku] at h
    · cases h
    rcases hasin : dictGet (headersOf (stripBom f0 :: rest)) (('a' :: 's' :: 'i' :: 'n' :: []))
        with _ | asinCol <;> rw [hasin] at h
    · cases h
    injection h with hm
    subst hm
    obtain ⟨kvS, hmemS, hkS, hvS⟩ := dictGet_some hsku
    obtain ⟨kvA, hmemA, hkA, hvA⟩ := dictGet_some hasin
    refine ⟨f0, rest, skuCol, asinCol, rfl, hsku, hasin, ?_, ?_, ?_, ?_⟩
    · rw [← hvS, ← headersOf_key_lower kvS hmemS]
      exact hkS
    · rw [← hvA, ← headersOf_key_lower kvA hmemA]
      exact hkA
    · intro kv hkv
      rcases loadRows_mem skuCol asinCol rows [] kv hkv with h1 | ⟨row, hrow, e1, e2, hne, hm2⟩
      · cases h1
      · exact ⟨hne, hm2, row, hrow, e1, e2⟩
    · intro m0 row hcond
      exact loadRow_invalid skuCol asinCol m0 row hcond

/-- Witness for C8: the loader applied to a concrete header with a
byte-order mark and mixed-case column names, and three rows of which only
the first survives. -/
theorem C8_loader_properties_witness :
    ∃ f0 rest skuCol asinCol,
      csvHeaderC8 = f0 :: rest ∧
      dictGet (headersOf (stripBom f0 :: rest)) (('s' :: 'k' :: 'u' :: [])) = some skuCol ∧
      dictGet (headersOf (stripBom f0 :: rest)) (('a' :: 's' :: 'i' :: 'n' :: [])) = some asinCol ∧
      pyLowerStr skuCol = ('s' :: 'k' :: 'u' :: []) ∧
      pyLowerStr asinCol = ('a' :: 's' :: 'i' :: 'n' :: []) ∧
      (∀ kv ∈ ([((("x").data), (("B0ABCDEFG1").data))] : PyDict),
        kv.1 ≠ [] ∧ asinMatch kv.2 = true ∧
        ∃ row ∈ csvRowsC8,
          kv.1 = pyLowerStr (pyStrip ((dictGet row skuCol).getD [])) ∧
          kv.2 = pyUpperStr (pyStrip ((dictGet row asinCol).getD []))) ∧
      (∀ (m0 : PyDict) (row : CsvRow),
        (pyLowerStr (pyStrip ((dictGet row skuCol).getD [])) = [] ∨
         asinMatch (pyUpperStr (pyStrip ((dictGet row asinCol).getD []))) = false) →
        loadRow skuCol asinCol m0 row = m0) :=
  C8_loader_properties csvHeaderC8 csvRowsC8 [((("x").data), (("B0ABCDEFG1").data))] rfl

/-- Claim C9: for any two strings, the natural keys alternate between
digit-free text parts (even positions) and numbers (odd positions), so the
lexicographic comparison of two keys only ever compares text with text or a
number with a number — it is total and never fails on a mixed `int`/`str`
comparison. -/
theorem C9_natural_key_comparison_total (a b : PyStr) :
    AltKey false (natural_key a) ∧
    (keyLt (natural_key a) (natural_key b)).isSome = true :=
  ⟨altKey_natural_key a,
   keyLt_isSome_of_alt (altKey_natural_key a) (altKey_natural_key b)⟩

end AmzTool
